import Mathlib

/-!
Verification of the Syncread sync core against its specification.

The TypeScript sources are shallowly embedded: JS numbers are modeled as
rationals (`ℚ`, with `ℤ`/`ℕ` where the code only ever holds integers), JS
strings as lists of characters (`List Char`, since JS string indices are
code-unit positions), fallible operations as `Except`, and external
collaborators (ffmpeg/ffprobe, the Whisper client, Fuse.js, the blob store)
as oracle parameters so that the repository's own control flow and
arithmetic are captured exactly.
-/

namespace Syncread

/-- JS `String.prototype.slice(start, stop)` for non-negative arguments
(the only way the sync core calls it): characters at positions
`start ≤ i < stop`, clamped to the string. -/
def jsSlice (s : List Char) (start stop : ℕ) : List Char :=
  (s.take stop).drop start

/-- JS `String.prototype.trim()`: strip leading and trailing whitespace. -/
def jsTrim (s : List Char) : List Char :=
  ((s.dropWhile Char.isWhitespace).reverse.dropWhile Char.isWhitespace).reverse

/-- JS `String.prototype.trimEnd()`: strip trailing whitespace. -/
def jsTrimEnd (s : List Char) : List Char :=
  (s.reverse.dropWhile Char.isWhitespace).reverse

/-- Whether `pat` occurs in `s` starting exactly at position `i`. -/
def substrAt (s : List Char) (i : ℕ) (pat : List Char) : Bool :=
  decide ((s.drop i).take pat.length = pat)

/-- JS `String.prototype.indexOf(pat, fromIndex)` (for `fromIndex ≥ 0`):
first position `≥ min fromIndex s.length` where `pat` occurs, `none` for
JS's `-1`.  As in JS, the empty pattern is found at `min fromIndex length`. -/
def jsIndexOfFrom (s pat : List Char) (fromIndex : ℕ) : Option ℕ :=
  (List.range (s.length + 1)).find? fun i =>
    decide (min fromIndex s.length ≤ i) && substrAt s i pat

/-- Worker for `jsSplitWhitespace`; the fuel is at least the number of
remaining characters plus one, and every step consumes at least one
character, so the fuel never runs out when called through the wrapper. -/
def jsSplitWhitespaceGo : ℕ → List Char → List Char → List (List Char)
  | 0, _, cur => [cur.reverse]
  | _ + 1, [], cur => [cur.reverse]
  | fuel + 1, c :: cs, cur =>
    if c.isWhitespace then
      cur.reverse :: jsSplitWhitespaceGo fuel (cs.dropWhile Char.isWhitespace) []
    else
      jsSplitWhitespaceGo fuel cs (c :: cur)

/-- JS `s.split(/\s+/)`: segments between maximal whitespace runs,
including an empty first segment when `s` starts with whitespace and an
empty last segment when it ends with whitespace (ECMAScript `split`
semantics, with `Char.isWhitespace` standing in for the `\s` class). -/
def jsSplitWhitespace (s : List Char) : List (List Char) :=
  jsSplitWhitespaceGo (s.length + 1) s []

/-- The word count the EPUB parser computes:
`text.split(/\s+/).filter(w => w.length > 0).length`. -/
def countWords (s : List Char) : ℕ :=
  ((jsSplitWhitespace s).filter fun w => 0 < w.length).length

/-- A sync anchor `{ audioTime, textIndex, confidence }` as produced by the
fuzzy matcher and stored on the sync-session row. -/
structure SyncAnchor where
  audioTime : ℚ
  textIndex : ℤ
  confidence : ℚ
deriving DecidableEq, Repr

/-- Comparison used whenever the code sorts anchors with
`(a, b) => a.audioTime - b.audioTime`. -/
def anchorLE (a b : SyncAnchor) : Prop := a.audioTime ≤ b.audioTime

instance : DecidableRel anchorLE := fun a b =>
  inferInstanceAs (Decidable (a.audioTime ≤ b.audioTime))

instance : IsTotal SyncAnchor anchorLE := ⟨fun a b => le_total a.audioTime b.audioTime⟩

instance : IsTrans SyncAnchor anchorLE := ⟨fun _ _ _ h₁ h₂ => le_trans h₁ h₂⟩

/-- Comparison used by `(a, b) => b.confidence - a.confidence`
(descending confidence). -/
def anchorConfGE (a b : SyncAnchor) : Prop := b.confidence ≤ a.confidence

instance : DecidableRel anchorConfGE := fun a b =>
  inferInstanceAs (Decidable (b.confidence ≤ a.confidence))

instance : IsTotal SyncAnchor anchorConfGE := ⟨fun a b => le_total b.confidence a.confidence⟩

instance : IsTrans SyncAnchor anchorConfGE := ⟨fun _ _ _ h₁ h₂ => le_trans h₂ h₁⟩

/-- JS `Array.prototype.sort((a, b) => a.audioTime - b.audioTime)`,
modeled by a stable sort. -/
def sortAnchorsByTime (l : List SyncAnchor) : List SyncAnchor :=
  List.insertionSort anchorLE l

/-- One sliding-window chunk `{ text, index }` built by the fuzzy matcher
over the book text. -/
structure TextChunk where
  text : List Char
  index : ℕ
deriving DecidableEq, Repr

/-- Window size of the fuzzy matcher's sliding windows (`CHUNK_SIZE`). -/
def CHUNK_SIZE : ℕ := 50

/-- Window overlap of the fuzzy matcher's sliding windows (`OVERLAP`). -/
def OVERLAP : ℕ := 25

/-- Loop body of the window construction in `findTextMatches`
(`for (let i = 0; i < words.length; i += (CHUNK_SIZE - OVERLAP)) ...`).
The fuel is at least `words.length + 1`, which the wrapper supplies; each
step advances `i` by 25, so the fuel suffices. -/
def buildChunksGo (epubText : List Char) (words : List (List Char)) :
    ℕ → ℕ → List TextChunk → List TextChunk
  | 0, _, acc => acc
  | fuel + 1, i, acc =>
    if i < words.length then
      let chunkWords := (words.drop i).take CHUNK_SIZE
      let chunkText := List.intercalate [' '] chunkWords
      let searchStart := if i = 0 then 0 else ((acc.getLast?).map TextChunk.index).getD 0
      let firstWord := chunkWords.headD []
      match jsIndexOfFrom epubText firstWord searchStart with
      | some foundIndex =>
          buildChunksGo epubText words fuel (i + (CHUNK_SIZE - OVERLAP)) (acc ++ [⟨chunkText, foundIndex⟩])
      | none => buildChunksGo epubText words fuel (i + (CHUNK_SIZE - OVERLAP)) acc
    else acc

/-- The overlapping text windows that `findTextMatches`
(server `fuzzy-matcher.ts`) builds over the book text: 50-word windows at
a 25-word stride, each recording the character index at which its first
word is found (searching forward from the previous window's index). -/
def buildChunks (epubText : List Char) : List TextChunk :=
  let words := jsSplitWhitespace epubText
  buildChunksGo epubText words (words.length + 1) 0 []

/-- One transcription fragment `{ text, timestamp }` passed to the fuzzy
matcher. -/
structure TranscriptFragment where
  text : List Char
  timestamp : ℚ
deriving DecidableEq, Repr

/-- Oracle for `new Fuse(chunks, …).search(query)`: the external Fuse.js
engine, abstracted as the ordered result list (best match first, each with
its optional score).  Only the repository's own use of the results is
embedded. -/
abbrev FuseOracle := List TextChunk → List Char → List (TextChunk × Option ℚ)

/-- Server `findTextMatches(epubText, transcriptions)` from
`fuzzy-matcher.ts`: build sliding windows, fuzzy-search each fragment of
trimmed length at least 10, convert the best match's score to a
confidence `1 - score`, keep it only above `0.5`, and sort the anchors by
`audioTime`. -/
def findTextMatches (fuse : FuseOracle) (epubText : List Char)
    (transcriptions : List TranscriptFragment) : List SyncAnchor :=
  let chunks := buildChunks epubText
  let syncAnchors := transcriptions.foldl (fun acc transcription =>
    let cleanTranscript := jsTrim transcription.text
    if cleanTranscript.length < 10 then acc
    else
      match fuse chunks cleanTranscript with
      | [] => acc
      | bestMatch :: _ =>
        let score := (bestMatch.2).getD 1
        let confidence := 1 - score
        if 1/2 < confidence then
          acc ++ [⟨transcription.timestamp, (bestMatch.1).index, confidence⟩]
        else acc) []
  sortAnchorsByTime syncAnchors

/-- A point `{ audioTime, textIndex }` of the interpolation curve
(`sync-algorithm.ts`). -/
structure SyncPoint where
  audioTime : ℚ
  textIndex : ℤ
deriving DecidableEq, Repr

/-- `MIN_TIME_GAP` of `calculateSyncPoints` (seconds). -/
def MIN_TIME_GAP : ℚ := 30

/-- `MIN_TEXT_GAP` of `calculateSyncPoints` (characters). -/
def MIN_TEXT_GAP : ℤ := 500

/-- The overlap test of `calculateSyncPoints`:
`selected.some(e => |e.audioTime - a.audioTime| < 30 || |e.textIndex - a.textIndex| < 500)`. -/
def hasOverlap (selectedAnchors : List SyncAnchor) (anchor : SyncAnchor) : Bool :=
  selectedAnchors.any fun existing =>
    decide (|existing.audioTime - anchor.audioTime| < MIN_TIME_GAP) ||
    decide (|existing.textIndex - anchor.textIndex| < MIN_TEXT_GAP)

/-- The greedy selection loop of `calculateSyncPoints`. -/
def selectAnchors (sortedAnchors : List SyncAnchor) : List SyncAnchor :=
  sortedAnchors.foldl
    (fun selected anchor => if hasOverlap selected anchor then selected else selected ++ [anchor]) []

/-- `calculateSyncPoints(anchors, totalDuration, totalTextLength)` from
`sync-algorithm.ts`. -/
def calculateSyncPoints (anchors : List SyncAnchor) (totalDuration : ℚ)
    (totalTextLength : ℤ) : List SyncPoint :=
  if anchors = [] then [⟨0, 0⟩, ⟨totalDuration, totalTextLength⟩]
  else
    let sortedAnchors := List.insertionSort anchorConfGE anchors
    let selectedAnchors := sortAnchorsByTime (selectAnchors sortedAnchors)
    let front : List SyncPoint :=
      match selectedAnchors.head? with
      | some a => if 5 < a.audioTime then [⟨0, 0⟩] else []
      | none => []
    let back : List SyncPoint :=
      match selectedAnchors.getLast? with
      | some a => if a.audioTime < totalDuration - 30 then [⟨totalDuration, totalTextLength⟩] else []
      | none => []
    front ++ selectedAnchors.map (fun a => ⟨a.audioTime, a.textIndex⟩) ++ back

/-- The spec's acceptance criterion for the anchor calculator: at least
30 s and at least 500 chars away from every already-accepted anchor. -/
def farFromAll (accepted : List SyncAnchor) (anchor : SyncAnchor) : Prop :=
  ∀ e ∈ accepted,
    30 ≤ |e.audioTime - anchor.audioTime| ∧ 500 ≤ |e.textIndex - anchor.textIndex|

instance (accepted : List SyncAnchor) (anchor : SyncAnchor) :
    Decidable (farFromAll accepted anchor) :=
  inferInstanceAs (Decidable (∀ e ∈ accepted, _ ∧ _))

/-- Greedy selection as worded by the spec: accept an anchor exactly when
it is far enough from every already-accepted anchor. -/
def selectAnchorsSpec (sortedAnchors : List SyncAnchor) : List SyncAnchor :=
  sortedAnchors.foldl
    (fun selected anchor => if farFromAll selected anchor then selected ++ [anchor] else selected) []

/-- The anchor calculator as worded by the specification (sort by
confidence descending, greedy selection with the 30 s / 500 char gaps,
re-sort by time, synthetic endpoints). -/
def calculateSyncPointsSpec (anchors : List SyncAnchor) (totalDuration : ℚ)
    (totalTextLength : ℤ) : List SyncPoint :=
  if anchors = [] then [⟨0, 0⟩, ⟨totalDuration, totalTextLength⟩]
  else
    let sortedAnchors := List.insertionSort anchorConfGE anchors
    let selectedAnchors := sortAnchorsByTime (selectAnchorsSpec sortedAnchors)
    let front : List SyncPoint :=
      match selectedAnchors.head? with
      | some a => if 5 < a.audioTime then [⟨0, 0⟩] else []
      | none => []
    let back : List SyncPoint :=
      match selectedAnchors.getLast? with
      | some a => if a.audioTime < totalDuration - 30 then [⟨totalDuration, totalTextLength⟩] else []
      | none => []
    front ++ selectedAnchors.map (fun a => ⟨a.audioTime, a.textIndex⟩) ++ back

/-- `interpolateSync(syncPoints, audioTime)` from `sync-algorithm.ts`:
scan for the first bracketing pair, defaulting to (first, last), then
linearly interpolate and `Math.round`. -/
def interpolateSync : List SyncPoint → ℚ → ℤ
  | [], _ => 0
  | [p], _ => p.textIndex
  | p₀ :: p₁ :: rest, audioTime =>
    let syncPoints := p₀ :: p₁ :: rest
    let pairs := syncPoints.zip (p₁ :: rest)
    let chosen := (pairs.find? fun pr =>
        decide ((pr.1).audioTime ≤ audioTime) && decide (audioTime ≤ (pr.2).audioTime)).getD
      (p₀, (p₁ :: rest).getLast (List.cons_ne_nil _ _))
    let before := chosen.1
    let after := chosen.2
    let timeDiff := after.audioTime - before.audioTime
    if timeDiff = 0 then before.textIndex
    else
      let ratio := (audioTime - before.audioTime) / timeDiff
      round ((before.textIndex : ℚ) + ratio * ((after.textIndex : ℚ) - (before.textIndex : ℚ)))

/-- The duplicate-collapse window of the progressive merge
(`progressive-sync.ts`): two anchors collide when they are within 1 s and
10 chars of each other. -/
def anchorsCollide (a b : SyncAnchor) : Bool :=
  decide (|a.audioTime - b.audioTime| < 1) && decide (|a.textIndex - b.textIndex| < 10)

/-- One step of the `mergedAnchors.reduce(...)` duplicate removal in
`syncWordChunk`: find the first colliding anchor already kept; replace it
in place when the incoming anchor has strictly higher confidence,
otherwise drop the incoming anchor; append when nothing collides. -/
def dedupStep (acc : List SyncAnchor) (anchor : SyncAnchor) : List SyncAnchor :=
  match List.findIdx? (fun a => anchorsCollide a anchor) acc with
  | some idx =>
    match acc[idx]? with
    | some existing => if existing.confidence < anchor.confidence then acc.set idx anchor else acc
    | none => acc
  | none => acc ++ [anchor]

/-- The `reduce` of `syncWordChunk` that removes near-duplicate anchors. -/
def dedupAnchors (mergedAnchors : List SyncAnchor) : List SyncAnchor :=
  mergedAnchors.foldl dedupStep []

/-- The anchor merge performed by `syncWordChunk` (lines 138–158 of
`progressive-sync.ts`): sort the union of the existing and the freshly
matched anchors by `audioTime`, then collapse near-duplicates. -/
def mergeAnchors (existingAnchors adjustedMatches : List SyncAnchor) : List SyncAnchor :=
  dedupAnchors (sortAnchorsByTime (existingAnchors ++ adjustedMatches))

/-- Pairwise separation of an anchor list: no two of its anchors are
within 1 s and 10 chars of each other. -/
def anchorsSeparated (l : List SyncAnchor) : Prop :=
  l.Pairwise fun a b => anchorsCollide a b = false

/-- The EPUB record fields `syncWordChunk` reads. -/
structure EpubBook where
  textContent : List Char
deriving DecidableEq, Repr

/-- The audiobook record fields `syncWordChunk` reads. -/
structure Audiobook where
  filePath : String
  format : String
  objectStoragePath : Option String
deriving DecidableEq, Repr

/-- The sync-session row fields the sync core reads and writes. -/
structure SyncSession where
  status : String
  currentStep : String
  progress : ℤ
  wordChunkSize : Option ℤ
  syncedUpToWord : Option ℤ
  syncAnchors : Option (List SyncAnchor)
  error : Option String
  progressVersion : Option ℤ
  playbackPositionSec : ℚ
  playbackProgress : ℚ
  playbackUpdatedAt : ℕ
  userId : String
deriving DecidableEq, Repr

/-- `buildWordIndexMap(text)` from `progressive-sync.ts`: character
position of each word start. -/
def buildWordIndexMapGo : List Char → ℕ → Bool → List ℕ → List ℕ
  | [], _, _, acc => acc
  | c :: cs, i, inWord, acc =>
    if !inWord && !c.isWhitespace then buildWordIndexMapGo cs (i + 1) true (acc ++ [i])
    else if inWord && c.isWhitespace then buildWordIndexMapGo cs (i + 1) false acc
    else buildWordIndexMapGo cs (i + 1) inWord acc

/-- `buildWordIndexMap(text)`: array whose entry `i` is the character
position at which word `i` starts. -/
def buildWordIndexMap (text : List Char) : List ℕ :=
  buildWordIndexMapGo text 0 false []

/-- External collaborators of `syncWordChunk`, abstracted as oracles: the
store rows it fetches, the audio extraction (`extractAudioByWordRange`,
reported start time of the extracted segment for a word range), the
Whisper transcription of that segment, and the Fuse.js engine. -/
structure ChunkEnv where
  epub : Option EpubBook
  audio : Option Audiobook
  segmentStartTime : ℕ → ℕ → ℚ
  transcriptText : ℕ → ℕ → List Char
  fuse : FuseOracle

/-- `syncWordChunk(sessionId, wordStart, wordCount)` from
`progressive-sync.ts`, as a transformer of the session row.  The returned
pair is (returned boolean, session row after the call); a `none` session
models a missing row (`updateSyncSession` on a missing row is a no-op).
Failure paths reproduce the `catch` block, which marks the session
`error`. -/
def syncWordChunk (env : ChunkEnv) (session : Option SyncSession)
    (wordStart wordCount : ℤ) : Bool × Option SyncSession :=
  match session with
  | none => (false, none)
  | some s =>
    if s.status = "paused" then (false, some s)
    else
      match env.epub, env.audio with
      | some epub, some _audio =>
        let wordMap := buildWordIndexMap epub.textContent
        let totalWords : ℤ := wordMap.length
        let actualStart := max 0 (min wordStart totalWords)
        let actualEnd := min totalWords (wordStart + wordCount)
        let actualCount := actualEnd - actualStart
        if actualCount ≤ 0 then (false, some s)
        else
          let startCharIndex := wordMap.getD actualStart.toNat 0
          let endCharIndex :=
            if actualEnd < totalWords then wordMap.getD actualEnd.toNat 0
            else epub.textContent.length
          let textSlice := jsSlice epub.textContent startCharIndex endCharIndex
          let segStart := env.segmentStartTime actualStart.toNat actualCount.toNat
          let transcriptionText := env.transcriptText actualStart.toNat actualCount.toNat
          let foundMatches := findTextMatches env.fuse textSlice [⟨transcriptionText, segStart⟩]
          let adjustedMatches := foundMatches.map fun m =>
            (⟨m.audioTime, m.textIndex + (startCharIndex : ℤ), m.confidence⟩ : SyncAnchor)
          let existingAnchors := (s.syncAnchors).getD []
          let uniqueAnchors := mergeAnchors existingAnchors adjustedMatches
          let s₁ := { s with syncAnchors := some uniqueAnchors }
          let s₂ :=
            if (s.syncedUpToWord).getD 0 < actualEnd then
              let s' := { s₁ with
                syncedUpToWord := some actualEnd,
                progress := ⌊(actualEnd : ℚ) / (totalWords : ℚ) * 100⌋ }
              if totalWords ≤ actualEnd then
                { s' with status := "complete", currentStep := "complete", progress := 100 }
              else s'
            else s₁
          (true, some s₂)
      | _, _ =>
        (false, some { s with
          status := "error",
          error := some "Chunk sync failed: EPUB or audiobook not found" })

/-- JS `session.wordChunkSize || 1000`: `0`, like `null`, falls back to
the default. -/
def jsWordChunkSize (v : Option ℤ) : ℤ :=
  match v with
  | some n => if n = 0 then 1000 else n
  | none => 1000

/-- `startProgressiveSync(sessionId)` from `progressive-sync.ts`: mark the
session `processing`/`transcribing` and sync the first chunk of
`session.wordChunkSize || 1000` words starting at word 0.  A missing
session makes the code throw before touching the row. -/
def startProgressiveSync (env : ChunkEnv) (session : Option SyncSession) :
    Bool × Option SyncSession :=
  match session with
  | none => (false, none)
  | some s =>
    let s₁ := { s with status := "processing", currentStep := "transcribing" }
    let chunkSize := jsWordChunkSize s.wordChunkSize
    syncWordChunk env (some s₁) 0 chunkSize

/-- `MAX_CHUNK_SIZE` of `audio-chunker.ts`: 24 MiB, kept safely below the
25 MiB Whisper limit. -/
def MAX_CHUNK_SIZE : ℕ := 24 * 1024 * 1024

/-- The transcription provider's own limit (25 MiB). -/
def PROVIDER_MAX_BYTES : ℕ := 25 * 1024 * 1024

/-- An `AudioChunk` descriptor as returned by the chunker. -/
structure AudioChunk where
  path : String
  startTime : ℚ
  duration : ℚ
  size : ℕ
  isObjectStorage : Bool
deriving DecidableEq, Repr

/-- Node `path.extname` for ordinary file paths: the suffix of the
basename from its last dot, empty when the basename has no dot or only a
leading dot. -/
def extname (p : String) : String :=
  let base := ((p.toList.reverse.takeWhile fun c => c ≠ '/')).reverse
  let afterDot := base.reverse.takeWhile fun c => c ≠ '.'
  if afterDot.length = base.length then ""
  else if afterDot.length + 1 = base.length then ""
  else ⟨'.' :: afterDot.reverse⟩

/-- External collaborators of the audio chunker, abstracted as oracles:
`fs.statSync(file).size`, the probed duration (`0` when unknown), the
probed byte-per-second rate (`getAudioBitrate` already divides by 8; `0`
when unknown), the byte size ffmpeg produces for a segment at a given
start time and duration, and whether the blob-store upload of chunk `i`
succeeds. -/
structure AudioSourceEnv where
  size : ℕ
  duration : ℚ
  bytesPerSecond : ℚ
  segmentSize : ℚ → ℚ → ℕ
  uploadOk : ℕ → Bool
  privateDir : String

/-- Target duration of chunk `chunkIndex` in `extractChunksWithDuration`:
M4B sources cap the very first chunk at 120 s. -/
def wdTargetDuration (isM4B : Bool) (chunkDuration : ℚ) (chunkIndex : ℕ) : ℚ :=
  if isM4B && chunkIndex = 0 then min 120 chunkDuration else chunkDuration

/-- The final path and blob-store flag of a chunk after the optional
upload step shared by both extraction loops. -/
def chunkFinalPath (env : AudioSourceEnv) (uniqueId : String) (useObjectStorage : Bool)
    (chunkIndex : ℕ) (actualOutputPath : String) : String × Bool :=
  if useObjectStorage && env.uploadOk chunkIndex then
    (env.privateDir ++ "/temp_chunks/" ++ uniqueId ++ "/chunk_" ++ Nat.repr chunkIndex ++
      extname actualOutputPath, true)
  else (actualOutputPath, false)

/-- The local output path `extractAudioSegment` actually writes for chunk
`chunkIndex` (M4B re-encoding switches the extension to `.mp3`). -/
def chunkOutputPath (uniqueId : String) (originalExt : String) (isM4B : Bool)
    (chunkIndex : ℕ) : String :=
  let chunkBase := "/tmp/audio_chunks_" ++ uniqueId ++ "/chunk_" ++ Nat.repr chunkIndex
  if isM4B then chunkBase ++ ".mp3" else chunkBase ++ originalExt

/-- The `while (currentTime < totalDuration)` loop of
`extractChunksWithDuration`.  The fuel only bounds the recursion depth;
running out of fuel is reported as an error so that every `.ok` result
comes from a completed loop. -/
def extractChunksWithDurationGo (env : AudioSourceEnv) (uniqueId originalExt : String)
    (isM4B : Bool) (totalDuration chunkDuration : ℚ) (useObjectStorage : Bool) :
    ℕ → ℚ → ℕ → Except String (List AudioChunk)
  | 0, _, _ => .error "fuel exhausted"
  | fuel + 1, currentTime, chunkIndex =>
    if currentTime < totalDuration then
      let remainingTime := totalDuration - currentTime
      let targetDuration := wdTargetDuration isM4B chunkDuration chunkIndex
      let actualDuration := min targetDuration remainingTime
      let chunkSize := env.segmentSize currentTime actualDuration
      if MAX_CHUNK_SIZE < chunkSize then
        .error ("Chunk " ++ Nat.repr chunkIndex ++ " size exceeds limit")
      else
        let actualOutputPath := chunkOutputPath uniqueId originalExt isM4B chunkIndex
        let fin := chunkFinalPath env uniqueId useObjectStorage chunkIndex actualOutputPath
        match extractChunksWithDurationGo env uniqueId originalExt isM4B totalDuration
            chunkDuration useObjectStorage fuel (currentTime + actualDuration) (chunkIndex + 1) with
        | .ok rest =>
          .ok (⟨fin.1, currentTime, actualDuration, chunkSize, fin.2⟩ :: rest)
        | .error e => .error e
    else .ok []

/-- `extractChunksWithDuration(audioFilePath, uniqueId, totalDuration,
chunkDuration, useObjectStorage)` from `audio-chunker.ts`. -/
def extractChunksWithDuration (env : AudioSourceEnv) (audioFilePath uniqueId : String)
    (totalDuration chunkDuration : ℚ) (useObjectStorage : Bool) (fuel : ℕ) :
    Except String (List AudioChunk) :=
  let originalExt := if extname audioFilePath = "" then ".mp3" else extname audioFilePath
  let isM4B := originalExt.toLower = ".m4b"
  extractChunksWithDurationGo env uniqueId originalExt isM4B totalDuration chunkDuration
    useObjectStorage fuel 0 0

/-- `CHUNK_DURATION` of the iterative fallback (5 minutes). -/
def ITER_CHUNK_DURATION : ℚ := 300

/-- `MIN_CHUNK_SIZE` of the iterative fallback (1 KiB; anything smaller
means the end of the audio was reached). -/
def MIN_CHUNK_SIZE : ℕ := 1024

/-- The `while (true)` loop of `extractChunksIteratively`: extract fixed
300 s segments until one comes back below 1 KiB or 500 chunks were
produced. -/
def extractChunksIterativelyGo (env : AudioSourceEnv) (uniqueId originalExt : String)
    (isM4B : Bool) (useObjectStorage : Bool) :
    ℕ → ℚ → ℕ → Except String (List AudioChunk)
  | 0, _, _ => .error "fuel exhausted"
  | fuel + 1, currentTime, chunkIndex =>
    let chunkSize := env.segmentSize currentTime ITER_CHUNK_DURATION
    if chunkSize < MIN_CHUNK_SIZE then .ok []
    else if MAX_CHUNK_SIZE < chunkSize then
      .error ("Chunk " ++ Nat.repr chunkIndex ++ " size exceeds limit")
    else
      let actualOutputPath := chunkOutputPath uniqueId originalExt isM4B chunkIndex
      let fin := chunkFinalPath env uniqueId useObjectStorage chunkIndex actualOutputPath
      let chunk : AudioChunk := ⟨fin.1, currentTime, ITER_CHUNK_DURATION, chunkSize, fin.2⟩
      if 500 ≤ chunkIndex + 1 then .ok [chunk]
      else
        match extractChunksIterativelyGo env uniqueId originalExt isM4B useObjectStorage fuel
            (currentTime + ITER_CHUNK_DURATION) (chunkIndex + 1) with
        | .ok rest => .ok (chunk :: rest)
        | .error e => .error e

/-- `extractChunksIteratively(audioFilePath, uniqueId, useObjectStorage)`
from `audio-chunker.ts`. -/
def extractChunksIteratively (env : AudioSourceEnv) (audioFilePath uniqueId : String)
    (useObjectStorage : Bool) (fuel : ℕ) : Except String (List AudioChunk) :=
  let originalExt := if extname audioFilePath = "" then ".mp3" else extname audioFilePath
  let isM4B := originalExt.toLower = ".m4b"
  extractChunksIterativelyGo env uniqueId originalExt isM4B useObjectStorage fuel 0 0

/-- `splitAudioIntoChunks(audioFilePath, uniqueId, useObjectStorage)` from
`audio-chunker.ts`: pass files of at most 24 MiB through untouched,
otherwise chunk by duration when the duration is known and iteratively
when it is not. -/
def splitAudioIntoChunks (env : AudioSourceEnv) (audioFilePath uniqueId : String)
    (useObjectStorage : Bool) (fuel : ℕ) : Except String (List AudioChunk) :=
  let fileSize := env.size
  if fileSize ≤ MAX_CHUNK_SIZE then
    .ok [⟨audioFilePath, 0, 0, fileSize, false⟩]
  else
    let duration := env.duration
    if 0 < duration then
      let bitrate := env.bytesPerSecond
      let effectiveBitrate := if 0 < bitrate then bitrate else (fileSize : ℚ) / duration
      let calculatedDuration : ℤ := ⌊(MAX_CHUNK_SIZE : ℚ) / effectiveBitrate⌋
      let targetChunkDuration : ℤ := max 60 (min 600 calculatedDuration)
      extractChunksWithDuration env audioFilePath uniqueId duration
        (targetChunkDuration : ℚ) useObjectStorage fuel
    else extractChunksIteratively env audioFilePath uniqueId useObjectStorage fuel

/-- Request body of `POST /api/sync/:id/progress`; a field is `none` when
it is absent or not a finite number. -/
structure ProgressBody where
  positionSec : Option ℚ
  durationSec : Option ℚ
  progressVersion : Option ℚ
deriving DecidableEq, Repr

/-- The `POST /api/sync/:id/progress` handler from `routes.ts`, as a
function from the stored session row to either an HTTP error status or
the updated row.  `now` models `new Date()`. -/
def postProgress (now : ℕ) (userId : String) (body : ProgressBody)
    (session : Option SyncSession) : Except ℕ SyncSession :=
  match body.positionSec with
  | none => .error 400
  | some positionSec =>
    if positionSec < 0 then .error 400
    else
      match session with
      | none => .error 404
      | some s =>
        if s.userId ≠ userId then .error 403
        else
          let safeDuration := match body.durationSec with
            | some d => if 0 < d then some d else none
            | none => none
          let playbackPositionSec := match safeDuration with
            | some d => min positionSec d
            | none => positionSec
          let playbackProgress := match safeDuration with
            | some d => min 100 (max 0 (playbackPositionSec / d * 100))
            | none => 0
          let s₁ := { s with
            playbackPositionSec := playbackPositionSec,
            playbackProgress := playbackProgress,
            playbackUpdatedAt := now }
          match body.progressVersion with
          | some v =>
            if ((s.progressVersion).getD 1 : ℚ) < v then
              .ok { s₁ with progressVersion := some ⌊v⌋ }
            else .ok s₁
          | none => .ok s₁

/-- A sequence of checkpoint requests applied to a session row; a
rejected request leaves the row unchanged. -/
def runCheckpoints (ops : List (ℕ × String × ProgressBody)) (s : SyncSession) : SyncSession :=
  ops.foldl (fun cur op =>
    match postProgress op.1 op.2.1 op.2.2 (some cur) with
    | .ok s' => s'
    | .error _ => cur) s

/-- A chapter record of the EPUB parser (`epub-parser.ts`); the title is
produced by the external HTML parse and is irrelevant to the character
bookkeeping, so it is omitted. -/
structure Chapter where
  startIndex : ℕ
  endIndex : ℕ
  wordCount : ℕ
deriving DecidableEq, Repr

/-- One spine item of the text-assembly loop of `parseEpub`: the buffer
grows by `bodyText + "\n\n"` and items longer than 50 characters become
chapters with bounds taken against the growing buffer. -/
def parseEpubStep (acc : List Char × List Chapter) (bodyText : List Char) :
    List Char × List Chapter :=
  let fullText := acc.1
  let startIndex := fullText.length
  let fullText' := fullText ++ bodyText ++ ('\n' :: ['\n'])
  let endIndex := fullText'.length
  if 50 < bodyText.length then
    let chapterText := jsTrimEnd (jsSlice fullText' startIndex endIndex)
    (fullText', acc.2 ++ [⟨startIndex, endIndex, countWords chapterText⟩])
  else (fullText', acc.2)

/-- The text-assembly loop of `parseEpub`: each spine item contributes a
`bodyText` (the cheerio extraction, which is external, is abstracted as
the given strings). -/
def parseEpubBuffer (bodyTexts : List (List Char)) : List Char × List Chapter :=
  bodyTexts.foldl parseEpubStep ([], [])

/-- The tail of `parseEpub`: the returned `textContent` is the trimmed
buffer, and an empty chapter list falls back to a single full-content
chapter. -/
def parseEpubText (bodyTexts : List (List Char)) : List Char × List Chapter :=
  let built := parseEpubBuffer bodyTexts
  let trimmedText := jsTrim built.1
  let chapters :=
    if 0 < built.2.length then built.2
    else [⟨0, trimmedText.length, countWords (jsTrimEnd trimmedText)⟩]
  (trimmedText, chapters)

/-- Concrete environment for the C6 witness: a two-word book, every
oracle trivial. -/
def envC6 : ChunkEnv where
  epub := some ⟨("a b").toList⟩
  audio := some ⟨"a.mp3", "mp3", none⟩
  segmentStartTime := fun _ _ => 0
  transcriptText := fun _ _ => []
  fuse := fun _ _ => []

/-- A paused session used by the C6 witness. -/
def pausedSession : SyncSession where
  status := "paused"
  currentStep := "transcribing"
  progress := 0
  wordChunkSize := none
  syncedUpToWord := some 0
  syncAnchors := none
  error := none
  progressVersion := some 1
  playbackPositionSec := 0
  playbackProgress := 0
  playbackUpdatedAt := 0
  userId := "u"

/-- A pending session used by the C6 witness. -/
def pendingSession : SyncSession :=
  { pausedSession with status := "pending" }

/-- Concrete environment for C3: the fuzzy search finds nothing, the
transcript is a one-character fragment, the book has three words. -/
def probeEnv : ChunkEnv where
  epub := some ⟨("a b c").toList⟩
  audio := some ⟨"a.mp3", "mp3", none⟩
  segmentStartTime := fun _ _ => 0
  transcriptText := fun _ _ => ("x").toList
  fuse := fun _ _ => []

/-- A freshly created progressive session (no anchors yet). -/
def freshSession : SyncSession where
  status := "pending"
  currentStep := "created"
  progress := 0
  wordChunkSize := none
  syncedUpToWord := some 0
  syncAnchors := none
  error := none
  progressVersion := some 1
  playbackPositionSec := 0
  playbackProgress := 0
  playbackUpdatedAt := 0
  userId := "u"

/-- The session row `startProgressiveSync` produces on `probeEnv` from
`freshSession`: the three-word book is fully covered by the first chunk,
so the session completes with an empty anchor list. -/
def probeResult : SyncSession where
  status := "complete"
  currentStep := "complete"
  progress := 100
  wordChunkSize := none
  syncedUpToWord := some 3
  syncAnchors := some []
  error := none
  progressVersion := some 1
  playbackPositionSec := 0
  playbackProgress := 0
  playbackUpdatedAt := 0
  userId := "u"

/-- Session row used by the C7 runs. -/
def playbackSession : SyncSession where
  status := "processing"
  currentStep := "transcribing"
  progress := 40
  wordChunkSize := none
  syncedUpToWord := some 1000
  syncAnchors := none
  error := none
  progressVersion := some 2
  playbackPositionSec := 10
  playbackProgress := 10
  playbackUpdatedAt := 0
  userId := "u"

/-- A checkpoint body reporting position 200 against duration 100. -/
def overLongBody : ProgressBody where
  positionSec := some 200
  durationSec := some 100
  progressVersion := none

/-- A checkpoint body reporting a negative position. -/
def negBody : ProgressBody where
  positionSec := some (-5)
  durationSec := none
  progressVersion := none

/-- The row `postProgress` stores for `overLongBody` on
`playbackSession`: the over-long position is clamped to the duration. -/
def clampedSession : SyncSession :=
  { playbackSession with
    playbackPositionSec := 100, playbackProgress := 100, playbackUpdatedAt := 1 }

/-- A 50 MiB source file with known duration and bitrate, used by the C2
witness. -/
def sampleAudio : AudioSourceEnv where
  size := 50 * 1024 * 1024
  duration := 100
  bytesPerSecond := 524288
  segmentSize := fun _ _ => 1000000
  uploadOk := fun _ => false
  privateDir := ".private"

/-- The chunk list `splitAudioIntoChunks` produces for `sampleAudio`. -/
def sampleChunks : List AudioChunk :=
  [⟨"/tmp/audio_chunks_u/chunk_0.mp3", 0, 60, 1000000, false⟩,
   ⟨"/tmp/audio_chunks_u/chunk_1.mp3", 60, 40, 1000000, false⟩]

/-- A source file of exactly `providerMaxBytes` (25 MiB). -/
def providerSizedAudio : AudioSourceEnv :=
  { sampleAudio with size := 25 * 1024 * 1024 }

/-- A small (1000 byte) source file for the C10 witness. -/
def smallAudio : AudioSourceEnv :=
  { sampleAudio with size := 1000 }

/-- The shape of every anchor `findTextMatches` emits: confidence above
one half, coming from a fragment of the input list whose trimmed text has
at least 10 characters, carrying that fragment's timestamp, the top
search result's window offset, and confidence `1 − score`. -/
def emittedFrom (fuse : FuseOracle) (epubText : List Char)
    (transcriptions : List TranscriptFragment) (a : SyncAnchor) : Prop :=
  1/2 < a.confidence ∧
  ∃ tr ∈ transcriptions, 10 ≤ (jsTrim tr.text).length ∧ a.audioTime = tr.timestamp ∧
    ∃ best rest, fuse (buildChunks epubText) (jsTrim tr.text) = best :: rest ∧
      a.textIndex = ((best.1).index : ℤ) ∧ a.confidence = 1 - ((best.2).getD 1)

/-- Constant oracle used by the C8 witness: the top search result is the
window at offset 5 with score `1/4`. -/
def wFuse : FuseOracle := fun _ _ => [(⟨[], 5⟩, some (1/4))]

/-- Fragment used by the C8 witness (ten characters, timestamp 7). -/
def wFragment : TranscriptFragment := ⟨("abcdefghij").toList, 7⟩

lemma hasOverlap_eq_false_iff (selectedAnchors : List SyncAnchor) (anchor : SyncAnchor) :
    hasOverlap selectedAnchors anchor = false ↔ farFromAll selectedAnchors anchor := by
  simp [hasOverlap, farFromAll, not_or, not_lt, MIN_TIME_GAP, MIN_TEXT_GAP]

lemma selectAnchors_eq_spec (l : List SyncAnchor) : selectAnchors l = selectAnchorsSpec l := by
  unfold selectAnchors selectAnchorsSpec
  have hstep :
      (fun (selected : List SyncAnchor) anchor =>
        if hasOverlap selected anchor then selected else selected ++ [anchor]) =
      (fun (selected : List SyncAnchor) anchor =>
        if farFromAll selected anchor then selected ++ [anchor] else selected) := by
    funext selected anchor
    by_cases h : farFromAll selected anchor
    · rw [if_pos h, if_neg]
      simp [(hasOverlap_eq_false_iff selected anchor).mpr h]
    · rw [if_neg h]
      have : hasOverlap selected anchor = true := by
        cases hb : hasOverlap selected anchor with
        | false => exact absurd ((hasOverlap_eq_false_iff selected anchor).mp hb) h
        | true => rfl
      rw [if_pos this]
  rw [hstep]

lemma insertionSort_ne_nil {α : Type} (r : α → α → Prop) [DecidableRel r]
    {l : List α} (h : l ≠ []) : List.insertionSort r l ≠ [] := by
  intro hnil
  have hp := List.perm_insertionSort r l
  rw [hnil] at hp
  exact h hp.symm.eq_nil

lemma foldl_select_ne_nil (l : List SyncAnchor) (acc : List SyncAnchor) (h : acc ≠ []) :
    l.foldl (fun selected anchor =>
      if hasOverlap selected anchor then selected else selected ++ [anchor]) acc ≠ [] := by
  induction l generalizing acc with
  | nil => exact h
  | cons x xs ih =>
    simp only [List.foldl_cons]
    apply ih
    by_cases hx : hasOverlap acc x
    · simpa [hx]
    · simp [hx]

lemma selectAnchors_ne_nil {l : List SyncAnchor} (h : l ≠ []) : selectAnchors l ≠ [] := by
  cases l with
  | nil => exact absurd rfl h
  | cons x xs =>
    unfold selectAnchors
    simp only [List.foldl_cons]
    apply foldl_select_ne_nil
    simp [hasOverlap]

/-- C4: for every anchor set, total duration `D` and total text length
`L`, the anchor calculator selects anchors greedily in
descending-confidence order, accepting an anchor only if it is at least
30 seconds and at least 500 characters away from every already-accepted
anchor; after re-sorting by `audioTime` it prepends `(0, 0)` iff the
first selected anchor's `audioTime` is greater than 5, and appends
`(D, L)` iff the last selected anchor's `audioTime` is less than
`D − 30`; for an empty anchor set it returns exactly the two synthetic
endpoints.  Formally: `calculateSyncPoints` (from the source) agrees with
`calculateSyncPointsSpec` (written from the claim's words) everywhere,
and for a nonempty anchor set the selected list the endpoint tests look
at is nonempty. -/
theorem C4_calculateSyncPoints :
    ∀ (anchors : List SyncAnchor) (totalDuration : ℚ) (totalTextLength : ℤ),
      calculateSyncPoints anchors totalDuration totalTextLength =
        calculateSyncPointsSpec anchors totalDuration totalTextLength ∧
      (anchors ≠ [] →
        sortAnchorsByTime (selectAnchors (List.insertionSort anchorConfGE anchors)) ≠ []) := by
  intro anchors totalDuration totalTextLength
  constructor
  · unfold calculateSyncPoints calculateSyncPointsSpec
    simp only [selectAnchors_eq_spec]
  · intro h
    unfold sortAnchorsByTime
    exact insertionSort_ne_nil _ (selectAnchors_ne_nil (insertionSort_ne_nil _ h))

/-- Witness for C4 at the single anchor `(0, 0, 1)` with duration 100 and
text length 1000. -/
theorem C4_witness :
    calculateSyncPoints [⟨0, 0, 1⟩] 100 1000 = calculateSyncPointsSpec [⟨0, 0, 1⟩] 100 1000 ∧
    sortAnchorsByTime (selectAnchors (List.insertionSort anchorConfGE [⟨0, 0, 1⟩])) ≠ [] := by
  have h := C4_calculateSyncPoints [⟨0, 0, 1⟩] 100 1000
  exact ⟨h.1, h.2 (by simp)⟩

/-- C5: for every sync-point list and audio time `t`, `interpolateSync`
returns `round(a.textIndex + (t − a.audioTime)/(b.audioTime −
a.audioTime) × (b.textIndex − a.textIndex))` for a bracketing pair of
consecutive points `(a, b)` with `a.audioTime ≤ t ≤ b.audioTime`
(whenever such a pair exists); the empty list yields 0, a single point
yields that point's `textIndex`, and a zero-width bracket yields
`a.textIndex`. -/
theorem C5_interpolateSync :
    ∀ (syncPoints : List SyncPoint) (audioTime : ℚ),
      (syncPoints = [] → interpolateSync syncPoints audioTime = 0) ∧
      (∀ p, syncPoints = [p] → interpolateSync syncPoints audioTime = p.textIndex) ∧
      ((∃ i, ∃ h : i + 1 < syncPoints.length,
          (syncPoints.get ⟨i, by omega⟩).audioTime ≤ audioTime ∧
          audioTime ≤ (syncPoints.get ⟨i + 1, h⟩).audioTime) →
        ∃ j, ∃ h : j + 1 < syncPoints.length,
          (syncPoints.get ⟨j, by omega⟩).audioTime ≤ audioTime ∧
          audioTime ≤ (syncPoints.get ⟨j + 1, h⟩).audioTime ∧
          interpolateSync syncPoints audioTime =
            (if (syncPoints.get ⟨j, by omega⟩).audioTime = (syncPoints.get ⟨j + 1, h⟩).audioTime
             then (syncPoints.get ⟨j, by omega⟩).textIndex
             else round (((syncPoints.get ⟨j, by omega⟩).textIndex : ℚ) +
               (audioTime - (syncPoints.get ⟨j, by omega⟩).audioTime) /
                 ((syncPoints.get ⟨j + 1, h⟩).audioTime - (syncPoints.get ⟨j, by omega⟩).audioTime) *
               (((syncPoints.get ⟨j + 1, h⟩).textIndex : ℚ) -
                 ((syncPoints.get ⟨j, by omega⟩).textIndex : ℚ))))) := by
  intro syncPoints audioTime
  refine ⟨fun h => by subst h; rfl, fun p h => by subst h; rfl, ?_⟩
  rintro ⟨i, hi, hle, hge⟩
  obtain ⟨p₀, tl, rfl⟩ : ∃ p₀ tl, syncPoints = p₀ :: tl := by
    cases syncPoints with
    | nil => simp at hi
    | cons a l => exact ⟨a, l, rfl⟩
  obtain ⟨p₁, rest, rfl⟩ : ∃ p₁ rest, tl = p₁ :: rest := by
    cases tl with
    | nil => simp at hi
    | cons a l => exact ⟨a, l, rfl⟩
  have hlen : ((p₀ :: p₁ :: rest).zip (p₁ :: rest)).length = (p₀ :: p₁ :: rest).length - 1 := by
    simp
  have hizip : i < ((p₀ :: p₁ :: rest).zip (p₁ :: rest)).length := by
    rw [hlen]
    omega
  have hsome : ∃ pr ∈ (p₀ :: p₁ :: rest).zip (p₁ :: rest),
      (decide ((pr.1).audioTime ≤ audioTime) && decide (audioTime ≤ (pr.2).audioTime)) = true := by
    refine ⟨((p₀ :: p₁ :: rest).zip (p₁ :: rest)).get ⟨i, hizip⟩, List.get_mem _ _ _, ?_⟩
    simp only [List.get_eq_getElem, List.getElem_zip, Bool.and_eq_true, decide_eq_true_eq]
    constructor
    · simpa [List.get_eq_getElem] using hle
    · have hge' := hge
      simp only [List.get_eq_getElem, List.getElem_cons_succ] at hge'
      simpa using hge'
  obtain ⟨pr, hprfind⟩ : ∃ pr, ((p₀ :: p₁ :: rest).zip (p₁ :: rest)).find?
      (fun pr => decide ((pr.1).audioTime ≤ audioTime) && decide (audioTime ≤ (pr.2).audioTime)) =
      some pr :=
    Option.isSome_iff_exists.mp (List.find?_isSome.mpr hsome)
  have hprtrue := List.find?_some hprfind
  simp only [Bool.and_eq_true, decide_eq_true_eq] at hprtrue
  have hprmem : pr ∈ (p₀ :: p₁ :: rest).zip (p₁ :: rest) := List.mem_of_find?_eq_some hprfind
  obtain ⟨n, hn, hneq⟩ := List.mem_iff_getElem.mp hprmem
  have hn' : n + 1 < (p₀ :: p₁ :: rest).length := by
    rw [hlen] at hn
    omega
  have hpr1 : pr.1 = (p₀ :: p₁ :: rest).get ⟨n, by omega⟩ := by
    rw [← hneq]
    simp only [List.getElem_zip, List.get_eq_getElem]
  have hpr2 : pr.2 = (p₀ :: p₁ :: rest).get ⟨n + 1, hn'⟩ := by
    rw [← hneq]
    simp only [List.getElem_zip, List.get_eq_getElem, List.getElem_cons_succ]
  refine ⟨n, hn', by rw [← hpr1]; exact hprtrue.1, by rw [← hpr2]; exact hprtrue.2, ?_⟩
  show interpolateSync (p₀ :: p₁ :: rest) audioTime = _
  unfold interpolateSync
  simp only
  rw [hprfind]
  simp only [Option.getD_some]
  rw [← hpr1, ← hpr2]
  by_cases hz : (pr.2).audioTime - (pr.1).audioTime = 0
  · rw [if_pos hz, if_pos (sub_eq_zero.mp hz).symm]
  · rw [if_neg hz, if_neg fun heq => hz (by rw [← heq, sub_self])]

lemma dedup_of_separated :
    ∀ (l acc : List SyncAnchor),
      (∀ a ∈ acc, ∀ x ∈ l, anchorsCollide a x = false) →
      anchorsSeparated l →
      l.foldl dedupStep acc = acc ++ l := by
  intro l
  induction l with
  | nil => intro acc _ _; simp
  | cons x xs ih =>
    intro acc hacc hsep
    unfold anchorsSeparated at hsep
    rw [List.foldl_cons]
    have hstep : dedupStep acc x = acc ++ [x] := by
      unfold dedupStep
      rw [List.findIdx?_eq_none_iff.mpr fun a ha => hacc a ha x (List.mem_cons_self _ _)]
    rw [hstep, ih (acc ++ [x]) ?_ ?_]
    · simp
    · intro a ha y hy
      rcases List.mem_append.mp ha with h | h
      · exact hacc a h y (List.mem_cons_of_mem _ hy)
      · have hax : a = x := by simpa using h
        subst hax
        exact (List.pairwise_cons.mp hsep).1 y hy
    · exact (List.pairwise_cons.mp hsep).2

/-- C1 counterexample: the merge of `syncWordChunk` applied to the stored
anchors `(0, 0, 0.6)`, `(0.6, 12, 0.55)` (which are pairwise separated
and sorted, so they can arise from earlier merges) and the new match
`(0.9, 5, 0.9)` replaces the first anchor in place, producing a list that
is not sorted by `audioTime` and still contains a pair within 1 s and
10 chars. -/
theorem C1_counterexample :
    mergeAnchors [⟨0, 0, 3/5⟩, ⟨3/5, 12, 11/20⟩] [⟨9/10, 5, 9/10⟩] =
      [⟨9/10, 5, 9/10⟩, ⟨3/5, 12, 11/20⟩] ∧
    ¬ List.Sorted anchorLE (mergeAnchors [⟨0, 0, 3/5⟩, ⟨3/5, 12, 11/20⟩] [⟨9/10, 5, 9/10⟩]) ∧
    anchorsCollide ⟨9/10, 5, 9/10⟩ ⟨3/5, 12, 11/20⟩ = true := by
  have heval : mergeAnchors [⟨0, 0, 3/5⟩, ⟨3/5, 12, 11/20⟩] [⟨9/10, 5, 9/10⟩] =
      [⟨9/10, 5, 9/10⟩, ⟨3/5, 12, 11/20⟩] := by
    norm_num [mergeAnchors, sortAnchorsByTime, List.insertionSort, List.orderedInsert,
      anchorLE, dedupAnchors, dedupStep, anchorsCollide, List.findIdx?_cons, List.findIdx?_nil,
      List.set, abs_lt]
  refine ⟨heval, ?_, ?_⟩
  · rw [heval]
    norm_num [List.sorted_cons, anchorLE]
  · norm_num [anchorsCollide, abs_lt]

/-- C1 amended: the merge keeps the higher-confidence anchor whenever a
pair collides, and whenever the sorted union of the existing and new
anchors is already pairwise separated (no replacement happens) the merge
returns exactly that sorted union, which is sorted by `audioTime`; but as
`C1_counterexample` shows, an in-place replacement can leave the stored
list unsorted and with colliding pairs, so sortedness and separation are
not invariants of the merge. -/
theorem C1_amended :
    (∀ existingAnchors adjustedMatches : List SyncAnchor,
        anchorsSeparated (sortAnchorsByTime (existingAnchors ++ adjustedMatches)) →
        mergeAnchors existingAnchors adjustedMatches =
          sortAnchorsByTime (existingAnchors ++ adjustedMatches) ∧
        List.Sorted anchorLE (mergeAnchors existingAnchors adjustedMatches)) ∧
    (∀ a b, anchorsCollide a b = true →
        dedupAnchors [a, b] = [if a.confidence < b.confidence then b else a]) := by
  constructor
  · intro ex adj hsep
    have heq : mergeAnchors ex adj = sortAnchorsByTime (ex ++ adj) := by
      unfold mergeAnchors dedupAnchors
      simpa using dedup_of_separated (sortAnchorsByTime (ex ++ adj)) [] (by simp) hsep
    refine ⟨heq, ?_⟩
    rw [heq]
    exact List.sorted_insertionSort anchorLE _
  · intro a b hcol
    unfold dedupAnchors
    simp only [List.foldl_cons, List.foldl_nil]
    have h1 : dedupStep [] a = [a] := by
      unfold dedupStep
      simp
    rw [h1]
    unfold dedupStep
    simp only [List.findIdx?_cons, hcol, if_true, List.findIdx?_nil]
    by_cases hc : a.confidence < b.confidence <;> simp [hc, List.set]

/-- Witness for C1 amended: a separated pair merges unchanged, and a
colliding pair keeps the higher-confidence anchor. -/
theorem C1_amended_witness :
    mergeAnchors [⟨0, 0, 3/5⟩] [⟨100, 600, 7/10⟩] = [⟨0, 0, 3/5⟩, ⟨100, 600, 7/10⟩] ∧
    dedupAnchors [⟨0, 0, 3/5⟩, ⟨1/2, 3, 9/10⟩] = [⟨1/2, 3, 9/10⟩] := by
  constructor
  · have h := (C1_amended.1 [⟨0, 0, 3/5⟩] [⟨100, 600, 7/10⟩] ?_).1
    · rw [h]
      norm_num [sortAnchorsByTime, List.insertionSort, List.orderedInsert, anchorLE]
    · norm_num [anchorsSeparated, sortAnchorsByTime, List.insertionSort, List.orderedInsert,
        anchorLE, anchorsCollide, List.pairwise_cons, abs_lt]
  · have h2 := C1_amended.2 ⟨0, 0, 3/5⟩ ⟨1/2, 3, 9/10⟩ (by norm_num [anchorsCollide, abs_lt])
    rw [h2]
    norm_num

/-- Witness for C5 on the two-point curve `(0, 0), (10, 100)` at time 4. -/
theorem C5_witness :
    ∃ j, ∃ h : j + 1 < ([⟨0, 0⟩, ⟨10, 100⟩] : List SyncPoint).length,
      (([⟨0, 0⟩, ⟨10, 100⟩] : List SyncPoint).get ⟨j, by omega⟩).audioTime ≤ 4 ∧
      (4 : ℚ) ≤ (([⟨0, 0⟩, ⟨10, 100⟩] : List SyncPoint).get ⟨j + 1, h⟩).audioTime ∧
      interpolateSync [⟨0, 0⟩, ⟨10, 100⟩] 4 =
        (if (([⟨0, 0⟩, ⟨10, 100⟩] : List SyncPoint).get ⟨j, by omega⟩).audioTime =
            (([⟨0, 0⟩, ⟨10, 100⟩] : List SyncPoint).get ⟨j + 1, h⟩).audioTime
         then (([⟨0, 0⟩, ⟨10, 100⟩] : List SyncPoint).get ⟨j, by omega⟩).textIndex
         else round (((([⟨0, 0⟩, ⟨10, 100⟩] : List SyncPoint).get ⟨j, by omega⟩).textIndex : ℚ) +
           (4 - (([⟨0, 0⟩, ⟨10, 100⟩] : List SyncPoint).get ⟨j, by omega⟩).audioTime) /
             ((([⟨0, 0⟩, ⟨10, 100⟩] : List SyncPoint).get ⟨j + 1, h⟩).audioTime -
               (([⟨0, 0⟩, ⟨10, 100⟩] : List SyncPoint).get ⟨j, by omega⟩).audioTime) *
           (((([⟨0, 0⟩, ⟨10, 100⟩] : List SyncPoint).get ⟨j + 1, h⟩).textIndex : ℚ) -
             ((([⟨0, 0⟩, ⟨10, 100⟩] : List SyncPoint).get ⟨j, by omega⟩).textIndex : ℚ)))) := by
  refine (C5_interpolateSync [⟨0, 0⟩, ⟨10, 100⟩] 4).2.2 ⟨0, by decide, ?_, ?_⟩
  · show ((0 : ℚ)) ≤ 4
    norm_num
  · show (4 : ℚ) ≤ (10 : ℚ)
    norm_num

/-- C6: `syncWordChunk` returns `false` without mutating the session row
when its precondition fails: whenever the session is paused, and whenever
the clamped word range `[wordStart, wordStart + wordCount] ∩ [0,
totalWords]` is empty — in particular whenever `wordStart` exceeds
`totalWords`. -/
theorem C6_syncWordChunk_refusals :
    ∀ (env : ChunkEnv) (s : SyncSession) (wordStart wordCount : ℤ),
      (s.status = "paused" →
        syncWordChunk env (some s) wordStart wordCount = (false, some s)) ∧
      (∀ epub, s.status ≠ "paused" → env.epub = some epub → (env.audio).isSome →
        min ((buildWordIndexMap epub.textContent).length : ℤ) (wordStart + wordCount) ≤
          max 0 (min wordStart ((buildWordIndexMap epub.textContent).length : ℤ)) →
        syncWordChunk env (some s) wordStart wordCount = (false, some s)) ∧
      (∀ epub, s.status ≠ "paused" → env.epub = some epub → (env.audio).isSome →
        ((buildWordIndexMap epub.textContent).length : ℤ) < wordStart →
        syncWordChunk env (some s) wordStart wordCount = (false, some s)) := by
  intro env s wordStart wordCount
  have hpaused : s.status = "paused" →
      syncWordChunk env (some s) wordStart wordCount = (false, some s) := by
    intro h
    simp [syncWordChunk, h]
  have hempty : ∀ epub, s.status ≠ "paused" → env.epub = some epub → (env.audio).isSome →
      min ((buildWordIndexMap epub.textContent).length : ℤ) (wordStart + wordCount) ≤
        max 0 (min wordStart ((buildWordIndexMap epub.textContent).length : ℤ)) →
      syncWordChunk env (some s) wordStart wordCount = (false, some s) := by
    intro epub hnp hep ha hle
    obtain ⟨audio, ha'⟩ := Option.isSome_iff_exists.mp ha
    simp only [syncWordChunk, hep, ha', if_neg hnp]
    rw [if_pos (by omega)]
  refine ⟨hpaused, hempty, fun epub hnp hep ha hlt => hempty epub hnp hep ha (by omega)⟩

/-- Witness for C6: the paused refusal at `(0, 10)` and the
out-of-range refusal at `wordStart = 5` on a two-word book. -/
theorem C6_witness :
    syncWordChunk envC6 (some pausedSession) 0 10 = (false, some pausedSession) ∧
    syncWordChunk envC6 (some pendingSession) 5 3 = (false, some pendingSession) := by
  constructor
  · exact (C6_syncWordChunk_refusals envC6 pausedSession 0 10).1 rfl
  · exact (C6_syncWordChunk_refusals envC6 pendingSession 5 3).2.2 ⟨("a b").toList⟩
      (by decide) rfl (by decide) (by decide)

/-- C3 counterexample: starting a progressive sync on `probeEnv` (where
the matcher finds no acceptable match) stores `syncAnchors = []` — no
45-second probe runs and no fallback `(0, 0)` anchor is seeded, contrary
to the claim that `syncAnchors` would be seeded with a highest-confidence
probe match or with `(0, 0)`. -/
theorem C3_counterexample :
    ((startProgressiveSync probeEnv (some freshSession)).2.map SyncSession.syncAnchors) =
      some (some ([] : List SyncAnchor)) := by
  decide

/-- C3 amended: `startProgressiveSync` marks the session
`processing`/`transcribing` and immediately syncs the first word chunk of
`wordChunkSize || 1000` words starting at word 0; it performs no initial
alignment probe, and when the matcher finds nothing (and the session has
no anchors yet) the stored anchor list stays empty rather than being
seeded with `(0, 0)`. -/
lemma foldl_step_id {α β : Type} {f : α → β → α} (hf : ∀ a b, f a b = a) :
    ∀ (l : List β) (a : α), l.foldl f a = a := by
  intro l
  induction l with
  | nil => intro a; rfl
  | cons x xs ih =>
    intro a
    rw [List.foldl_cons, hf, ih]

lemma findTextMatches_of_empty_fuse (epubText : List Char)
    (transcriptions : List TranscriptFragment) :
    findTextMatches (fun _ _ => []) epubText transcriptions = [] := by
  simp only [findTextMatches]
  rw [foldl_step_id]
  · rfl
  · intro a b
    dsimp only
    split <;> rfl

/-- C3 amended: `startProgressiveSync` marks the session
`processing`/`transcribing` and immediately syncs the first word chunk of
`wordChunkSize || 1000` words starting at word 0; it performs no initial
alignment probe, and when the matcher finds nothing and the session has
no anchors yet, the stored anchor list stays empty rather than being
seeded with a `(0, 0)` fallback anchor. -/
theorem C3_amended :
    (∀ env s, startProgressiveSync env (some s) =
        syncWordChunk env
          (some { s with status := "processing", currentStep := "transcribing" })
          0 (jsWordChunkSize s.wordChunkSize)) ∧
    (∀ env s s', env.fuse = (fun _ _ => []) →
        (s.syncAnchors).getD [] = [] →
        (startProgressiveSync env (some s)).2 = some s' →
        (s'.syncAnchors).getD [] = []) := by
  have hchar : ∀ env s, startProgressiveSync env (some s) =
      syncWordChunk env
        (some { s with status := "processing", currentStep := "transcribing" })
        0 (jsWordChunkSize s.wordChunkSize) := fun env s => rfl
  refine ⟨hchar, ?_⟩
  intro env s s' hfuse hanch hres
  rw [hchar] at hres
  simp only [syncWordChunk] at hres
  rw [if_neg (by simp :
    ¬ (({ s with status := "processing", currentStep := "transcribing" } :
        SyncSession).status = "paused"))] at hres
  cases hep : env.epub with
  | none =>
    rw [hep] at hres
    dsimp only at hres
    injection hres with h
    subst h
    simpa using hanch
  | some epub =>
    rw [hep] at hres
    cases ha : env.audio with
    | none =>
      rw [ha] at hres
      dsimp only at hres
      injection hres with h
      subst h
      simpa using hanch
    | some audio =>
      rw [ha] at hres
      dsimp only at hres
      rw [hfuse, findTextMatches_of_empty_fuse] at hres
      split at hres
      · injection hres with h
        subst h
        simpa using hanch
      · split at hres
        · split at hres
          · injection hres with h
            subst h
            have hanch' : (s.syncAnchors).getD [] = [] := hanch
            simp only [List.map_nil]
            simp [mergeAnchors, dedupAnchors, sortAnchorsByTime, List.insertionSort, hanch']
          · injection hres with h
            subst h
            simp only [List.map_nil]
            simp [mergeAnchors, dedupAnchors, sortAnchorsByTime, List.insertionSort, hanch]
        · injection hres with h
          subst h
          simp only [List.map_nil]
          simp [mergeAnchors, dedupAnchors, sortAnchorsByTime, List.insertionSort, hanch]

/-- Witness for C3 amended on the concrete probe environment. -/
theorem C3_amended_witness :
    (startProgressiveSync probeEnv (some freshSession)).2 = some probeResult ∧
    (probeResult.syncAnchors).getD [] = [] := by
  have hres : (startProgressiveSync probeEnv (some freshSession)).2 = some probeResult := by
    decide
  exact ⟨hres, C3_amended.2 probeEnv freshSession probeResult rfl rfl hres⟩

/-- C7 counterexample: a checkpoint reporting position 200 with duration
100 is accepted — the handler clamps the stored position to the duration
and answers with the updated row instead of rejecting the request, so the
operation does not accept a position only when it is at most the
duration. -/
theorem C7_counterexample :
    (postProgress 1 "u" overLongBody (some playbackSession)).toOption.map
      SyncSession.playbackPositionSec = some 100 ∧
    ¬ ((200 : ℚ) ≤ 100) := by
  constructor
  · norm_num [postProgress, overLongBody, playbackSession]
    exact ⟨_, rfl, rfl⟩
  · norm_num

/-- C7 amended: the checkpoint operation rejects positions that are
missing or negative with a 400; an accepted checkpoint stores a
non-negative position, clamped to the duration whenever a positive
duration is supplied (over-long positions are clamped and accepted, not
rejected); the stored `progressVersion` changes only when the request
supplies one strictly greater than the stored value (then it stores its
floor), so the stored version — read через `?? 1` as the handler does — is
monotone non-decreasing over every sequence of checkpoint operations. -/
theorem C7_postProgress :
    (∀ now userId body session, body.positionSec = none →
        postProgress now userId body session = .error 400) ∧
    (∀ now userId body session p, body.positionSec = some p → p < 0 →
        postProgress now userId body session = .error 400) ∧
    (∀ now userId body s s', postProgress now userId body (some s) = .ok s' →
        (0 ≤ s'.playbackPositionSec ∧
          ∀ d, body.durationSec = some d → 0 < d → s'.playbackPositionSec ≤ d)) ∧
    (∀ now userId body s s', postProgress now userId body (some s) = .ok s' →
        ((s.progressVersion).getD 1 ≤ (s'.progressVersion).getD 1 ∧
          (s'.progressVersion ≠ s.progressVersion →
            ∃ v, body.progressVersion = some v ∧ (((s.progressVersion).getD 1 : ℤ) : ℚ) < v))) ∧
    (∀ ops s, (s.progressVersion).getD 1 ≤ ((runCheckpoints ops s).progressVersion).getD 1) := by
  have herrnone : ∀ now userId body session, body.positionSec = none →
      postProgress now userId body session = .error 400 := by
    intro now userId body session h
    simp [postProgress, h]
  have herrneg : ∀ now userId body session p, body.positionSec = some p → p < 0 →
      postProgress now userId body session = .error 400 := by
    intro now userId body session p h hp
    simp [postProgress, h, hp]
  have hpos : ∀ now userId body s s', postProgress now userId body (some s) = .ok s' →
      (0 ≤ s'.playbackPositionSec ∧
        ∀ d, body.durationSec = some d → 0 < d → s'.playbackPositionSec ≤ d) := by
    intro now userId body s s' hok
    unfold postProgress at hok
    cases hp : body.positionSec with
    | none => rw [hp] at hok; cases hok
    | some p =>
      rw [hp] at hok
      dsimp only at hok
      split at hok
      · cases hok
      · rename_i hpneg
        have hp0 : 0 ≤ p := le_of_not_lt hpneg
        split at hok
        · cases hok
        · cases hd : body.durationSec with
          | none =>
            rw [hd] at hok
            dsimp only at hok
            split at hok
            all_goals try split at hok
            all_goals
              injection hok with h
              subst h
              refine ⟨hp0, ?_⟩
              intro d hd' _
              cases hd'
          | some d =>
            rw [hd] at hok
            dsimp only at hok
            by_cases hdpos : 0 < d
            · rw [if_pos hdpos] at hok
              dsimp only at hok
              split at hok
              all_goals try split at hok
              all_goals
                injection hok with h
                subst h
                refine ⟨le_min hp0 (le_of_lt hdpos), ?_⟩
                intro d' hd'' _
                have hdd : d = d' := Option.some.inj hd''
                subst hdd
                exact min_le_right _ _
            · rw [if_neg hdpos] at hok
              dsimp only at hok
              split at hok
              all_goals try split at hok
              all_goals
                injection hok with h
                subst h
                refine ⟨hp0, ?_⟩
                intro d' hd'' hd'pos
                have hdd : d = d' := Option.some.inj hd''
                subst hdd
                exact absurd hd'pos hdpos
  have hver : ∀ now userId body s s', postProgress now userId body (some s) = .ok s' →
      ((s.progressVersion).getD 1 ≤ (s'.progressVersion).getD 1 ∧
        (s'.progressVersion ≠ s.progressVersion →
          ∃ v, body.progressVersion = some v ∧ (((s.progressVersion).getD 1 : ℤ) : ℚ) < v)) := by
    intro now userId body s s' hok
    unfold postProgress at hok
    cases hp : body.positionSec with
    | none => rw [hp] at hok; cases hok
    | some p =>
      rw [hp] at hok
      dsimp only at hok
      split at hok
      · cases hok
      · split at hok
        · cases hok
        · cases hv : body.progressVersion with
          | none =>
            rw [hv] at hok
            dsimp only at hok
            injection hok with h
            subst h
            exact ⟨le_refl _, fun hne => absurd rfl hne⟩
          | some v =>
            rw [hv] at hok
            dsimp only at hok
            split at hok
            · rename_i hgt
              injection hok with h
              subst h
              refine ⟨?_, fun _ => ⟨v, rfl, hgt⟩⟩
              show (s.progressVersion).getD 1 ≤ (some ⌊v⌋ : Option ℤ).getD 1
              simp only [Option.getD_some]
              have hle : (((s.progressVersion).getD 1 : ℤ) : ℚ) ≤ v := le_of_lt hgt
              exact Int.le_floor.mpr hle
            · injection hok with h
              subst h
              exact ⟨le_refl _, fun hne => absurd rfl hne⟩
  refine ⟨herrnone, herrneg, hpos, hver, ?_⟩
  intro ops
  induction ops with
  | nil => intro s; exact le_refl _
  | cons op rest ih =>
    intro s
    show (s.progressVersion).getD 1 ≤
      ((runCheckpoints rest (match postProgress op.1 op.2.1 op.2.2 (some s) with
        | .ok s' => s'
        | .error _ => s)).progressVersion).getD 1
    cases hstep : postProgress op.1 op.2.1 op.2.2 (some s) with
    | ok s' =>
      calc (s.progressVersion).getD 1 ≤ (s'.progressVersion).getD 1 :=
            (hver op.1 op.2.1 op.2.2 s s' hstep).1
        _ ≤ _ := ih s'
    | error e => exact ih s

/-- Witness for C7 amended: a negative position is rejected with 400, and
the accepted over-long checkpoint stores a position within `[0, d]`. -/
theorem C7_witness :
    postProgress 3 "u" negBody (some playbackSession) = .error 400 ∧
    (0 ≤ clampedSession.playbackPositionSec ∧
      ∀ d, overLongBody.durationSec = some d → 0 < d →
        clampedSession.playbackPositionSec ≤ d) := by
  refine ⟨C7_postProgress.2.1 3 "u" negBody (some playbackSession) (-5) rfl (by norm_num), ?_⟩
  have hok : postProgress 1 "u" overLongBody (some playbackSession) = .ok clampedSession := by
    norm_num [postProgress, overLongBody, playbackSession, clampedSession]
  exact C7_postProgress.2.2.1 1 "u" overLongBody playbackSession clampedSession hok

lemma parseEpub_fold_invariant :
    ∀ (bodyTexts : List (List Char)) (acc : List Char × List Chapter),
      List.Chain' (fun c₁ c₂ => c₁.endIndex ≤ c₂.startIndex) acc.2 →
      (∀ c ∈ acc.2, c.endIndex ≤ acc.1.length) →
      List.Chain' (fun c₁ c₂ => c₁.endIndex ≤ c₂.startIndex)
        (bodyTexts.foldl parseEpubStep acc).2 ∧
      (∀ c ∈ (bodyTexts.foldl parseEpubStep acc).2,
        c.endIndex ≤ (bodyTexts.foldl parseEpubStep acc).1.length) := by
  intro bodyTexts
  induction bodyTexts with
  | nil => intro acc h1 h2; exact ⟨h1, h2⟩
  | cons b bs ih =>
    intro acc h1 h2
    rw [List.foldl_cons]
    apply ih
    · unfold parseEpubStep
      split
      · dsimp only
        rw [List.chain'_append]
        refine ⟨h1, List.chain'_singleton _, ?_⟩
        intro x hx y hy
        simp only [List.head?_cons, Option.mem_def, Option.some.injEq] at hy
        subst hy
        exact h2 x (List.mem_of_mem_getLast? hx)
      · exact h1
    · unfold parseEpubStep
      split
      · dsimp only
        intro c hc
        rcases List.mem_append.mp hc with h | h
        · calc c.endIndex ≤ acc.1.length := h2 c h
            _ ≤ (acc.1 ++ b ++ ('\n' :: ['\n'])).length := by simp
        · simp only [List.mem_singleton] at h
          subst h
          exact le_refl _
      · dsimp only
        intro c hc
        calc c.endIndex ≤ acc.1.length := h2 c hc
          _ ≤ (acc.1 ++ b ++ ('\n' :: ['\n'])).length := by simp

lemma jsTrim_length_le (s : List Char) : (jsTrim s).length ≤ s.length := by
  unfold jsTrim
  calc (((s.dropWhile Char.isWhitespace).reverse.dropWhile Char.isWhitespace).reverse).length
      = ((s.dropWhile Char.isWhitespace).reverse.dropWhile Char.isWhitespace).length := by
        exact List.length_reverse _
    _ ≤ (s.dropWhile Char.isWhitespace).reverse.length :=
        (List.dropWhile_sublist _).length_le
    _ = (s.dropWhile Char.isWhitespace).length := List.length_reverse _
    _ ≤ s.length := (List.dropWhile_sublist _).length_le

/-- C9 counterexample: a single 51-character spine item yields one
chapter with `endChar = 53` (the bounds include the appended paragraph
separator) while the returned `textContent` is the trimmed buffer of
length 51, so `chapters.endChar[last] ≤ len(plainText)` fails. -/
theorem C9_counterexample :
    (parseEpubText [List.replicate 51 'a']).2 = [⟨0, 53, 1⟩] ∧
    (parseEpubText [List.replicate 51 'a']).1.length = 51 := by
  decide

/-- C9 amended: consecutive chapters produced by the parser satisfy
`endChar[i] ≤ startChar[i+1]`, and every chapter's `endChar` — the last
one included — is bounded by the length of the untrimmed text buffer;
since the returned `textContent` is the trimmed buffer, `endChar[last]`
can exceed `len(plainText)` by the trimmed whitespace (by the trailing
separator in `C9_counterexample`), so only the bound against the
untrimmed buffer holds. -/
theorem C9_parseEpub_bounds :
    ∀ bodyTexts,
      List.Chain' (fun c₁ c₂ => c₁.endIndex ≤ c₂.startIndex) (parseEpubText bodyTexts).2 ∧
      (∀ c ∈ (parseEpubText bodyTexts).2, c.endIndex ≤ (parseEpubBuffer bodyTexts).1.length) ∧
      (parseEpubText bodyTexts).1.length ≤ (parseEpubBuffer bodyTexts).1.length := by
  intro bodyTexts
  have hinv := parseEpub_fold_invariant bodyTexts ([], []) (List.chain'_nil) (by simp)
  have htrim : (parseEpubText bodyTexts).1.length ≤ (parseEpubBuffer bodyTexts).1.length :=
    jsTrim_length_le _
  unfold parseEpubText
  dsimp only
  split
  · exact ⟨hinv.1, hinv.2, htrim⟩
  · refine ⟨List.chain'_singleton _, ?_, htrim⟩
    intro c hc
    simp only [List.mem_singleton] at hc
    subst hc
    exact htrim

/-- Witness for C9 amended at the 51-character single-item book. -/
theorem C9_witness :
    List.Chain' (fun c₁ c₂ => c₁.endIndex ≤ c₂.startIndex)
      (parseEpubText [List.replicate 51 'a']).2 ∧
    (⟨0, 53, 1⟩ : Chapter).endIndex ≤ (parseEpubBuffer [List.replicate 51 'a']).1.length := by
  refine ⟨(C9_parseEpub_bounds [List.replicate 51 'a']).1, ?_⟩
  exact (C9_parseEpub_bounds [List.replicate 51 'a']).2.1 ⟨0, 53, 1⟩ (by decide)

lemma extractChunksWithDurationGo_ok
    (env : AudioSourceEnv) (uniqueId originalExt : String) (isM4B : Bool)
    (totalDuration chunkDuration : ℚ) (useObj : Bool) (hcd : 0 < chunkDuration) :
    ∀ (fuel : ℕ) (t : ℚ) (i : ℕ) (chunks : List AudioChunk),
      extractChunksWithDurationGo env uniqueId originalExt isM4B totalDuration chunkDuration
        useObj fuel t i = .ok chunks →
      (∀ c ∈ chunks, c.size ≤ MAX_CHUNK_SIZE) ∧
      (∀ c ∈ chunks, t ≤ c.startTime) ∧
      List.Chain' (fun c₁ c₂ => c₁.startTime < c₂.startTime) chunks := by
  intro fuel
  induction fuel with
  | zero => intro t i chunks hok; cases hok
  | succ fuel ih =>
    intro t i chunks hok
    unfold extractChunksWithDurationGo at hok
    dsimp only at hok
    split at hok
    · rename_i ht
      split at hok
      · cases hok
      · rename_i hsize
        have hact : 0 < min (wdTargetDuration isM4B chunkDuration i) (totalDuration - t) := by
          apply lt_min
          · unfold wdTargetDuration
            split
            · exact lt_min (by norm_num) hcd
            · exact hcd
          · linarith
        cases hrec : extractChunksWithDurationGo env uniqueId originalExt isM4B totalDuration
            chunkDuration useObj fuel
            (t + min (wdTargetDuration isM4B chunkDuration i) (totalDuration - t)) (i + 1) with
        | error e => rw [hrec] at hok; cases hok
        | ok rest =>
          rw [hrec] at hok
          injection hok with h
          subst h
          obtain ⟨hs, hlo, hch⟩ := ih _ (i + 1) rest hrec
          refine ⟨?_, ?_, ?_⟩
          · intro c hc
            rcases List.mem_cons.mp hc with h | h
            · subst h
              exact le_of_not_lt hsize
            · exact hs c h
          · intro c hc
            rcases List.mem_cons.mp hc with h | h
            · subst h; exact le_refl _
            · calc t ≤ t + min (wdTargetDuration isM4B chunkDuration i) (totalDuration - t) := by
                    linarith
                _ ≤ c.startTime := hlo c h
          · rw [List.chain'_cons']
            refine ⟨?_, hch⟩
            intro c hc
            have hm : c ∈ rest := List.mem_of_mem_head? hc
            calc t < t + min (wdTargetDuration isM4B chunkDuration i) (totalDuration - t) := by
                  linarith
              _ ≤ c.startTime := hlo c hm
    · injection hok with h
      subst h
      exact ⟨by simp, by simp, List.chain'_nil⟩

lemma extractChunksIterativelyGo_ok
    (env : AudioSourceEnv) (uniqueId originalExt : String) (isM4B : Bool) (useObj : Bool) :
    ∀ (fuel : ℕ) (t : ℚ) (i : ℕ) (chunks : List AudioChunk),
      extractChunksIterativelyGo env uniqueId originalExt isM4B useObj fuel t i = .ok chunks →
      (∀ c ∈ chunks, c.size ≤ MAX_CHUNK_SIZE) ∧
      (∀ c ∈ chunks, t ≤ c.startTime) ∧
      List.Chain' (fun c₁ c₂ => c₁.startTime < c₂.startTime) chunks := by
  intro fuel
  induction fuel with
  | zero => intro t i chunks hok; cases hok
  | succ fuel ih =>
    intro t i chunks hok
    unfold extractChunksIterativelyGo at hok
    dsimp only at hok
    split at hok
    · injection hok with h
      subst h
      exact ⟨by simp, by simp, List.chain'_nil⟩
    · split at hok
      · cases hok
      · rename_i hmin hsize
        split at hok
        · injection hok with h
          subst h
          refine ⟨?_, ?_, ?_⟩
          · intro c hc
            rcases List.mem_singleton.mp hc with rfl
            exact le_of_not_lt hsize
          · intro c hc
            rcases List.mem_singleton.mp hc with rfl
            exact le_refl _
          · exact List.chain'_singleton _
        · cases hrec : extractChunksIterativelyGo env uniqueId originalExt isM4B useObj fuel
              (t + ITER_CHUNK_DURATION) (i + 1) with
          | error e => rw [hrec] at hok; cases hok
          | ok rest =>
            rw [hrec] at hok
            injection hok with h
            subst h
            obtain ⟨hs, hlo, hch⟩ := ih _ (i + 1) rest hrec
            have hstep : (0 : ℚ) < ITER_CHUNK_DURATION := by norm_num [ITER_CHUNK_DURATION]
            refine ⟨?_, ?_, ?_⟩
            · intro c hc
              rcases List.mem_cons.mp hc with h | h
              · subst h
                exact le_of_not_lt hsize
              · exact hs c h
            · intro c hc
              rcases List.mem_cons.mp hc with h | h
              · subst h; exact le_refl _
              · calc t ≤ t + ITER_CHUNK_DURATION := by linarith
                  _ ≤ c.startTime := hlo c h
            · rw [List.chain'_cons']
              refine ⟨?_, hch⟩
              intro c hc
              have hm : c ∈ rest := List.mem_of_mem_head? hc
              calc t < t + ITER_CHUNK_DURATION := by linarith
                _ ≤ c.startTime := hlo c hm

/-- C2: every chunk list returned by `splitAudioIntoChunks` (on the
pass-through, known-duration and iterative paths alike) has every chunk's
byte size at most `MAX_CHUNK_BYTES` — hence at most the 25 MiB provider
limit — and strictly increasing `startTime`s; and whenever a freshly
extracted segment exceeds the limit, either extraction loop fails with an
error instead of returning that chunk. -/
theorem C2_chunker_invariants :
    (∀ env audioFilePath uniqueId useObj fuel chunks,
        splitAudioIntoChunks env audioFilePath uniqueId useObj fuel = .ok chunks →
        (∀ c ∈ chunks, c.size ≤ MAX_CHUNK_SIZE ∧ c.size ≤ PROVIDER_MAX_BYTES) ∧
        List.Chain' (fun c₁ c₂ => c₁.startTime < c₂.startTime) chunks) ∧
    (∀ env uniqueId originalExt isM4B totalDuration chunkDuration useObj fuel t i,
        t < totalDuration →
        MAX_CHUNK_SIZE <
          env.segmentSize t (min (wdTargetDuration isM4B chunkDuration i) (totalDuration - t)) →
        extractChunksWithDurationGo env uniqueId originalExt isM4B totalDuration chunkDuration
          useObj (fuel + 1) t i = .error ("Chunk " ++ Nat.repr i ++ " size exceeds limit")) ∧
    (∀ env uniqueId originalExt isM4B useObj fuel t i,
        MIN_CHUNK_SIZE ≤ env.segmentSize t ITER_CHUNK_DURATION →
        MAX_CHUNK_SIZE < env.segmentSize t ITER_CHUNK_DURATION →
        extractChunksIterativelyGo env uniqueId originalExt isM4B useObj (fuel + 1) t i =
          .error ("Chunk " ++ Nat.repr i ++ " size exceeds limit")) := by
  have hmaxle : MAX_CHUNK_SIZE ≤ PROVIDER_MAX_BYTES := by decide
  refine ⟨?_, ?_, ?_⟩
  · intro env audioFilePath uniqueId useObj fuel chunks hok
    unfold splitAudioIntoChunks at hok
    dsimp only at hok
    split at hok
    · rename_i hsmall
      injection hok with h
      subst h
      refine ⟨?_, List.chain'_singleton _⟩
      intro c hc
      rcases List.mem_singleton.mp hc with rfl
      exact ⟨hsmall, le_trans hsmall hmaxle⟩
    · split at hok
      · have hcd : (0 : ℚ) <
            ((max 60 (min 600 ⌊(MAX_CHUNK_SIZE : ℚ) /
              (if 0 < env.bytesPerSecond then env.bytesPerSecond
               else (env.size : ℚ) / env.duration)⌋) : ℤ) : ℚ) := by
          have h60 : (60 : ℤ) ≤ max 60 (min 600 ⌊(MAX_CHUNK_SIZE : ℚ) /
              (if 0 < env.bytesPerSecond then env.bytesPerSecond
               else (env.size : ℚ) / env.duration)⌋) := le_max_left _ _
          have : (0 : ℤ) < max 60 (min 600 ⌊(MAX_CHUNK_SIZE : ℚ) /
              (if 0 < env.bytesPerSecond then env.bytesPerSecond
               else (env.size : ℚ) / env.duration)⌋) := by omega
          exact_mod_cast this
        obtain ⟨hs, _, hch⟩ := extractChunksWithDurationGo_ok env uniqueId _ _ env.duration _
          useObj hcd fuel 0 0 chunks hok
        exact ⟨fun c hc => ⟨hs c hc, le_trans (hs c hc) hmaxle⟩, hch⟩
      · obtain ⟨hs, _, hch⟩ := extractChunksIterativelyGo_ok env uniqueId _ _ useObj
          fuel 0 0 chunks hok
        exact ⟨fun c hc => ⟨hs c hc, le_trans (hs c hc) hmaxle⟩, hch⟩
  · intro env uniqueId originalExt isM4B totalDuration chunkDuration useObj fuel t i ht hsize
    unfold extractChunksWithDurationGo
    rw [if_pos ht, if_pos hsize]
  · intro env uniqueId originalExt isM4B useObj fuel t i hmin hsize
    unfold extractChunksIterativelyGo
    rw [if_neg (not_lt.mpr hmin), if_pos hsize]

lemma sampleAudio_split :
    splitAudioIntoChunks sampleAudio "a.mp3" "u" false 5 = .ok sampleChunks := by
  have hext : extname "a.mp3" = ".mp3" := by decide
  norm_num [splitAudioIntoChunks, sampleAudio, extractChunksWithDuration,
    extractChunksWithDurationGo, wdTargetDuration, chunkOutputPath, chunkFinalPath,
    hext, MAX_CHUNK_SIZE, sampleChunks]
  exact ⟨by decide, by decide⟩

/-- Witness for C2 on `sampleAudio`: both produced chunks are below the
limits and their start times strictly increase. -/
theorem C2_witness :
    (∀ c ∈ sampleChunks, c.size ≤ MAX_CHUNK_SIZE ∧ c.size ≤ PROVIDER_MAX_BYTES) ∧
    List.Chain' (fun c₁ c₂ => c₁.startTime < c₂.startTime) sampleChunks :=
  C2_chunker_invariants.1 sampleAudio "a.mp3" "u" false 5 sampleChunks sampleAudio_split

/-- C10 counterexample: a file of exactly 25 MiB exceeds the 24 MiB
`MAX_CHUNK_BYTES` pass-through bound, so the chunker does not pass it
through as a single chunk describing the original file — it splits it
(here into two re-extracted chunks). -/
theorem C10_counterexample :
    providerSizedAudio.size = PROVIDER_MAX_BYTES ∧
    splitAudioIntoChunks providerSizedAudio "a.mp3" "u" false 5 = .ok sampleChunks ∧
    ¬ (splitAudioIntoChunks providerSizedAudio "a.mp3" "u" false 5 =
        .ok [⟨"a.mp3", 0, 0, providerSizedAudio.size, false⟩]) := by
  have hext : extname "a.mp3" = ".mp3" := by decide
  have hsplit : splitAudioIntoChunks providerSizedAudio "a.mp3" "u" false 5 = .ok sampleChunks := by
    norm_num [splitAudioIntoChunks, providerSizedAudio, sampleAudio, extractChunksWithDuration,
      extractChunksWithDurationGo, wdTargetDuration, chunkOutputPath, chunkFinalPath,
      hext, MAX_CHUNK_SIZE, sampleChunks]
    exact ⟨by decide, by decide⟩
  refine ⟨by decide, hsplit, ?_⟩
  rw [hsplit]
  intro hcontra
  injection hcontra with h
  exact absurd h (by decide)

/-- C10 amended: any source file whose byte size is at most
`MAX_CHUNK_BYTES` (24 MiB) — not the 25 MiB provider limit — is returned
as exactly one chunk describing the original file, with `startTime` 0 and
no copy; a file of exactly `providerMaxBytes` is over that bound and gets
split (`C10_counterexample`). -/
theorem C10_passthrough :
    ∀ env audioFilePath uniqueId useObj fuel, env.size ≤ MAX_CHUNK_SIZE →
      splitAudioIntoChunks env audioFilePath uniqueId useObj fuel =
        .ok [⟨audioFilePath, 0, 0, env.size, false⟩] := by
  intro env audioFilePath uniqueId useObj fuel h
  simp [splitAudioIntoChunks, h]

/-- Witness for C10 amended: the 1000-byte file passes through as a
single chunk with `startTime` 0. -/
theorem C10_witness :
    splitAudioIntoChunks smallAudio "b.mp3" "u" true 3 = .ok [⟨"b.mp3", 0, 0, 1000, false⟩] := by
  have h := C10_passthrough smallAudio "b.mp3" "u" true 3 (by decide)
  simpa [smallAudio, sampleAudio] using h

lemma jsIndexOfFrom_substrAt {s pat : List Char} {st idx : ℕ}
    (h : jsIndexOfFrom s pat st = some idx) : substrAt s idx pat = true := by
  have h2 := List.find?_some h
  simp only [Bool.and_eq_true] at h2
  exact h2.2

lemma buildChunksGo_mem (epubText : List Char) (words : List (List Char)) :
    ∀ (fuel k : ℕ) (acc : List TextChunk),
      (∀ c ∈ acc, ∃ k', (CHUNK_SIZE - OVERLAP) * k' < words.length ∧
        c.text = List.intercalate [' ']
          ((words.drop ((CHUNK_SIZE - OVERLAP) * k')).take CHUNK_SIZE) ∧
        substrAt epubText c.index
          (((words.drop ((CHUNK_SIZE - OVERLAP) * k')).take CHUNK_SIZE).headD []) = true) →
      ∀ c ∈ buildChunksGo epubText words fuel ((CHUNK_SIZE - OVERLAP) * k) acc,
        ∃ k', (CHUNK_SIZE - OVERLAP) * k' < words.length ∧
          c.text = List.intercalate [' ']
            ((words.drop ((CHUNK_SIZE - OVERLAP) * k')).take CHUNK_SIZE) ∧
          substrAt epubText c.index
            (((words.drop ((CHUNK_SIZE - OVERLAP) * k')).take CHUNK_SIZE).headD []) = true := by
  intro fuel
  induction fuel with
  | zero => intro k acc hacc c hc; exact hacc c hc
  | succ fuel ih =>
    intro k acc hacc c hc
    unfold buildChunksGo at hc
    dsimp only at hc
    split at hc
    · rename_i hklen
      have harith : (CHUNK_SIZE - OVERLAP) * k + (CHUNK_SIZE - OVERLAP) =
          (CHUNK_SIZE - OVERLAP) * (k + 1) := by ring
      split at hc
      · rename_i idx hfind
        rw [harith] at hc
        refine ih (k + 1) _ ?_ c hc
        intro c' hc'
        rcases List.mem_append.mp hc' with h | h
        · exact hacc c' h
        · simp only [List.mem_singleton] at h
          subst h
          exact ⟨k, hklen, rfl, jsIndexOfFrom_substrAt hfind⟩
      · rw [harith] at hc
        exact ih (k + 1) acc hacc c hc
    · exact hacc c hc

lemma findTextMatches_fold_emitted (fuse : FuseOracle) (epubText : List Char)
    (transcriptions : List TranscriptFragment) :
    ∀ (l : List TranscriptFragment) (acc : List SyncAnchor),
      (∀ tr ∈ l, tr ∈ transcriptions) →
      (∀ a ∈ acc, emittedFrom fuse epubText transcriptions a) →
      ∀ a ∈ l.foldl (fun acc transcription =>
          let cleanTranscript := jsTrim transcription.text
          if cleanTranscript.length < 10 then acc
          else
            match fuse (buildChunks epubText) cleanTranscript with
            | [] => acc
            | bestMatch :: _ =>
              let score := (bestMatch.2).getD 1
              let confidence := 1 - score
              if 1/2 < confidence then
                acc ++ [⟨transcription.timestamp, ((bestMatch.1).index : ℤ), confidence⟩]
              else acc) acc,
        emittedFrom fuse epubText transcriptions a := by
  intro l
  induction l with
  | nil => intro acc _ hacc a ha; exact hacc a ha
  | cons x xs ih =>
    intro acc hl hacc a ha
    rw [List.foldl_cons] at ha
    refine ih _ (fun tr htr => hl tr (List.mem_cons_of_mem _ htr)) ?_ a ha
    intro a' ha'
    dsimp only at ha'
    split at ha'
    · exact hacc a' ha'
    · rename_i hlen
      cases hf : fuse (buildChunks epubText) (jsTrim x.text) with
      | nil =>
        rw [hf] at ha'
        exact hacc a' ha'
      | cons best rest =>
        rw [hf] at ha'
        dsimp only at ha'
        split at ha'
        · rename_i hconf
          rcases List.mem_append.mp ha' with h | h
          · exact hacc a' h
          · simp only [List.mem_singleton] at h
            subst h
            exact ⟨hconf, x, hl x (List.mem_cons_self _ _), le_of_not_lt hlen, rfl,
              best, rest, hf, rfl, rfl⟩
        · exact hacc a' ha'

/-- C8: the fuzzy aligner builds its windows over the book text at 50
words with a 25-word stride, recording each emitted window's character
offset as a position where that window's first word occurs; it considers
only fragments whose trimmed length is at least 10 characters; every
anchor it emits carries a fragment's timestamp, the best (first) search
result's window offset and confidence `1 − score`, and is emitted only
with confidence strictly above `0.5`; and the returned list is sorted by
`audioTime`. -/
theorem C8_findTextMatches :
    (∀ epubText c, c ∈ buildChunks epubText →
      ∃ k, (CHUNK_SIZE - OVERLAP) * k < (jsSplitWhitespace epubText).length ∧
        c.text = List.intercalate [' ']
          (((jsSplitWhitespace epubText).drop ((CHUNK_SIZE - OVERLAP) * k)).take CHUNK_SIZE) ∧
        substrAt epubText c.index
          ((((jsSplitWhitespace epubText).drop ((CHUNK_SIZE - OVERLAP) * k)).take
            CHUNK_SIZE).headD []) = true) ∧
    (∀ fuse epubText transcriptions,
      List.Sorted anchorLE (findTextMatches fuse epubText transcriptions)) ∧
    (∀ fuse epubText transcriptions a, a ∈ findTextMatches fuse epubText transcriptions →
      emittedFrom fuse epubText transcriptions a) := by
  refine ⟨?_, ?_, ?_⟩
  · intro epubText c hc
    unfold buildChunks at hc
    dsimp only at hc
    rw [show (0 : ℕ) = (CHUNK_SIZE - OVERLAP) * 0 by ring] at hc
    exact buildChunksGo_mem epubText (jsSplitWhitespace epubText) _ 0 [] (by simp) c hc
  · intro fuse epubText transcriptions
    unfold findTextMatches sortAnchorsByTime
    exact List.sorted_insertionSort anchorLE _
  · intro fuse epubText transcriptions a hmem
    unfold findTextMatches sortAnchorsByTime at hmem
    dsimp only at hmem
    rw [(List.perm_insertionSort anchorLE _).mem_iff] at hmem
    exact findTextMatches_fold_emitted fuse epubText transcriptions transcriptions []
      (fun _ h => h) (by simp) a hmem

/-- Witness for C8: the single window built over a two-word text, and the
anchor emitted for `wFragment` under `wFuse`. -/
theorem C8_witness :
    (∃ k, (CHUNK_SIZE - OVERLAP) * k < (jsSplitWhitespace (("alpha beta").toList)).length ∧
      (⟨("alpha beta").toList, 0⟩ : TextChunk).text = List.intercalate [' ']
        (((jsSplitWhitespace (("alpha beta").toList)).drop
          ((CHUNK_SIZE - OVERLAP) * k)).take CHUNK_SIZE) ∧
      substrAt (("alpha beta").toList) (⟨("alpha beta").toList, 0⟩ : TextChunk).index
        ((((jsSplitWhitespace (("alpha beta").toList)).drop
          ((CHUNK_SIZE - OVERLAP) * k)).take CHUNK_SIZE).headD []) = true) ∧
    emittedFrom wFuse (("alpha beta").toList) [wFragment] ⟨7, 5, 3/4⟩ := by
  constructor
  · exact C8_findTextMatches.1 (("alpha beta").toList) ⟨("alpha beta").toList, 0⟩ (by decide)
  · apply C8_findTextMatches.2.2 wFuse (("alpha beta").toList) [wFragment] ⟨7, 5, 3/4⟩
    have hfold : findTextMatches wFuse (("alpha beta").toList) [wFragment] = [⟨7, 5, 3/4⟩] := by
      norm_num [findTextMatches, wFuse, wFragment, sortAnchorsByTime, List.insertionSort,
        List.orderedInsert, jsTrim]
    rw [hfold]
    exact List.mem_singleton.mpr rfl

end Syncread